import Mathlib

/-!
Verification development for `utf8console.h` (namespace `utf8con`).

The C++ header provides a streaming UTF-8 → wide-character transcoder
(`utf8_on_wide_out`, a `std::streambuf` whose `output_raw` decodes UTF-8
bytes and writes wide units to a wrapped `std::wstreambuf`), and a scope
guard (`con_transcoder`) that installs/removes such transcoders on
`std::cout` / `std::cerr`.

This file shallowly embeds those components:

* `DecState` models the decoder fields `left : int` and `point : uint32_t`.
* `SinkState` models the wrapped `std::wstreambuf`: a log of wide units
  successfully written by `sputc`, plus a capacity (`none` = every `sputc`
  succeeds, `some n` = the next `n` calls succeed and then `sputc`
  reports `eof`).
* `stepByte` is the body of the `while` loop of `output_raw` for one input
  byte; `outputRaw` iterates it and returns `start - first`, the number of
  bytes consumed.  `overflow` models `utf8_on_wide_out::overflow`.
* `stepByteP` / `outputRawP` are the pure projections (state and emitted
  units, sink always succeeding); they are proved to agree with
  `stepByte` / `outputRaw`.
* `Buf`, `ConsoleState`, `Guard`, `con_transcoder_ctor`, `con_transcoder_dtor`,
  `moveCtorGuard` model the scope guard, whose members are the two saved
  `std::streambuf*` pointers (`none` = null).

Wide units are `Nat` reduced modulo `2 ^ (8 * w)` where `w` is
`sizeof(wchar_t)` (`wtraits_type::to_char_type` truncation); input bytes
are `Nat` (the `unsigned char` values `0..255`).
-/

namespace Utf8Con

/-- Decoder state of `utf8_on_wide_out`: `left` is the `int left = -1`
member (continuation bytes still expected, `-1` = no sequence in
progress), `point` the `uint32_t point` member (accumulated code point
bits). -/
structure DecState where
  left : Int
  point : Nat
deriving DecidableEq, Repr

/-- The wrapped wide stream buffer `m_out`: `log` is the sequence of wide
units accepted by `sputc` so far, `cap` the number of further `sputc`
calls that will succeed (`none` = unlimited). A failing `sputc` records
nothing. -/
structure SinkState where
  cap : Option Nat
  log : List Nat
deriving DecidableEq, Repr

/-- One more than the largest value a wide unit can hold:
`2 ^ (8 * sizeof(wchar_t))`. -/
def wideMod (w : Nat) : Nat := 2 ^ (8 * w)

/-- `m_out->sputc(wtraits_type::to_char_type(ch))`: on success the unit
(truncated to the wide character width) is appended to the log; `none`
models `sputc` returning `eof`. -/
def SinkState.put (w : Nat) (sk : SinkState) (u : Nat) : Option SinkState :=
  match sk.cap with
  | none => some ⟨none, sk.log ++ [u % wideMod w]⟩
  | some 0 => none
  | some (n + 1) => some ⟨some n, sk.log ++ [u % wideMod w]⟩

/-- The continuation-byte fold `point = (ch & 0x3F) | (point << 6)`,
with the `uint32_t` wrap-around made explicit. -/
def contFold (point ch : Nat) : Nat := ((ch &&& 0x3F) ||| (point <<< 6)) % 2 ^ 32

/-- The classification chain of `output_raw` for a non-ASCII byte:
the new `(left, point)` pair produced by the `else if` ladder. -/
def classify (st : DecState) (ch : Nat) : Int × Nat :=
  if ch &&& 0xC0 = 0x80 ∧ 0 < st.left then (st.left - 1, contFold st.point ch)
  else if ch &&& 0xE0 = 0xC0 then (1, ch &&& 0x1F)
  else if ch &&& 0xF0 = 0xE0 then (2, ch &&& 0x0F)
  else if ch &&& 0xF8 = 0xF0 then (3, ch &&& 0x07)
  else (-1, st.point)

/-- One iteration of the `while (start != end)` loop of
`utf8_on_wide_out::output_raw` on byte `ch`.  Returns
`(success, state, sink)`; `success = false` means a `break` was taken
(a wide-unit write failed) after consuming `ch`. -/
def stepByte (w : Nat) (st : DecState) (sk : SinkState) (ch : Nat) :
    Bool × DecState × SinkState :=
  if ch &&& 0x80 = 0 then
    match SinkState.put w sk ch with
    | some sk2 => (true, ⟨-1, st.point⟩, sk2)
    | none => (false, ⟨-1, st.point⟩, sk)
  else
    let lp := classify st ch
    if lp.1 = 0 then
      if 4 ≤ w ∨ lp.2 ≤ 0xD7FF ∨ (0xE000 ≤ lp.2 ∧ lp.2 ≤ 0xFFFF) then
        match SinkState.put w sk lp.2 with
        | some sk2 => (true, ⟨-1, lp.2⟩, sk2)
        | none => (false, ⟨-1, lp.2⟩, sk)
      else if 0x10000 ≤ lp.2 ∧ lp.2 ≤ 0x10FFFF then
        let q := lp.2 - 0x10000
        match SinkState.put w sk ((q >>> 10) + 0xD800) with
        | some sk2 =>
          match SinkState.put w sk2 ((q &&& 0x3FF) + 0xDC00) with
          | some sk3 => (true, ⟨-1, q⟩, sk3)
          | none => (false, ⟨-1, q⟩, sk2)
        | none => (false, ⟨-1, q⟩, sk)
      else (true, ⟨-1, lp.2⟩, sk)
    else (true, ⟨lp.1, lp.2⟩, sk)

/-- `utf8_on_wide_out::output_raw(start, end)`: iterates `stepByte` over
the byte list, stopping at the first failed write; returns
`(start - first, state, sink)` where the first component is the number
of bytes consumed (the byte whose emission failed included). -/
def outputRaw (w : Nat) (st : DecState) (sk : SinkState) :
    List Nat → Nat × DecState × SinkState
  | [] => (0, st, sk)
  | ch :: rest =>
    match stepByte w st sk ch with
    | (true, st2, sk2) =>
      let r := outputRaw w st2 sk2 rest
      (r.1 + 1, r.2)
    | (false, st2, sk2) => (1, st2, sk2)

/-- `utf8_on_wide_out::overflow(ch)`: `none` models `traits_type::eof()`
(returns 0, touches nothing); an ASCII byte resets `left` and is written
directly; any other byte goes through `output_raw` on a one-byte buffer.
The `Int` result is `0` on success and `-1` (`eof`) on failure. -/
def overflow (w : Nat) (st : DecState) (sk : SinkState) :
    Option Nat → Int × DecState × SinkState
  | none => (0, st, sk)
  | some c =>
    if c &&& 0x80 = 0 then
      match SinkState.put w sk c with
      | some sk2 => (0, ⟨-1, st.point⟩, sk2)
      | none => (-1, ⟨-1, st.point⟩, sk)
    else
      let r := outputRaw w st sk [c]
      (if r.1 = 1 then 0 else -1, r.2)

/-- Emission step of `output_raw` once a code point is complete
(`left == 0`), pure form: new decoder state and the list of wide units
written (sink assumed to accept everything). -/
def emitStep (w : Nat) (point : Nat) : DecState × List Nat :=
  if 4 ≤ w ∨ point ≤ 0xD7FF ∨ (0xE000 ≤ point ∧ point ≤ 0xFFFF) then
    (⟨-1, point⟩, [point % wideMod w])
  else if 0x10000 ≤ point ∧ point ≤ 0x10FFFF then
    (⟨-1, point - 0x10000⟩,
      [((point - 0x10000) >>> 10 + 0xD800) % wideMod w,
       (((point - 0x10000) &&& 0x3FF) + 0xDC00) % wideMod w])
  else (⟨-1, point⟩, [])

/-- Pure form of `stepByte`: the state transition and the emitted wide
units of one loop iteration, when every `sputc` succeeds. -/
def stepByteP (w : Nat) (st : DecState) (ch : Nat) : DecState × List Nat :=
  if ch &&& 0x80 = 0 then (⟨-1, st.point⟩, [ch % wideMod w])
  else
    let lp := classify st ch
    if lp.1 = 0 then emitStep w lp.2
    else (⟨lp.1, lp.2⟩, [])

/-- Pure form of `output_raw`: final state and all emitted wide units,
when every `sputc` succeeds (so all bytes are consumed). -/
def outputRawP (w : Nat) (st : DecState) : List Nat → DecState × List Nat
  | [] => (st, [])
  | ch :: rest =>
    let s1 := stepByteP w st ch
    let s2 := outputRawP w s1.1 rest
    (s2.1, s1.2 ++ s2.2)

/-- A sequence of `output_raw` calls (one per chunk), threading decoder
state and sink: models feeding the same logical byte stream split across
several `xsputn` calls. -/
def runCalls (w : Nat) (st : DecState) (sk : SinkState) :
    List (List Nat) → DecState × SinkState
  | [] => (st, sk)
  | b :: bs =>
    let r := outputRaw w st sk b
    runCalls w r.2.1 r.2.2 bs

/-- `stepsOk` holds when every byte of the list is processed by
`output_raw` without any wide-unit write failing. -/
def stepsOk (w : Nat) (st : DecState) (sk : SinkState) : List Nat → Bool
  | [] => true
  | ch :: rest =>
    match stepByte w st sk ch with
    | (true, st2, sk2) => stepsOk w st2 sk2 rest
    | (false, _, _) => false

/-- The unique valid UTF-8 encoding of code point `p` (RFC 3629 byte
layout, written with `/` and `%` to extract the 6-bit groups). This
formalises the phrase "complete valid UTF-8 encoding of a code point"
from the specification; it is not part of the C++ source. -/
def utf8Encode (p : Nat) : List Nat :=
  if p < 0x80 then [p]
  else if p < 0x800 then [0xC0 + p / 0x40, 0x80 + p % 0x40]
  else if p < 0x10000 then
    [0xE0 + p / 0x1000, 0x80 + p / 0x40 % 0x40, 0x80 + p % 0x40]
  else
    [0xF0 + p / 0x40000, 0x80 + p / 0x1000 % 0x40,
     0x80 + p / 0x40 % 0x40, 0x80 + p % 0x40]

/-! ### Scope guard (`con_transcoder`) model

The process-visible stream plumbing: each of `std::cout` / `std::cerr`
has a current `streambuf`, which is either an ordinary buffer
(`Buf.orig`) or a `utf8_on_wide_out` instance (`Buf.dec`, carrying an
allocation id so distinct `new utf8_on_wide_out(...)` objects are
distinct values).  `dynamic_cast<utf8_on_wide_out*>` is `Buf.isDec`. -/

/-- A `std::streambuf*` value installed on a narrow console stream. -/
inductive Buf where
  | orig (id : Nat)
  | dec (id : Nat)
deriving DecidableEq, Repr

/-- `dynamic_cast<utf8_on_wide_out*>(buf) != nullptr`. -/
def Buf.isDec : Buf → Bool
  | .orig _ => false
  | .dec _ => true

/-- Process-wide state touched by `con_transcoder`: the buffers installed
on `cout` and `cerr`, the function-local `static bool prepared` flag, an
instrumentation counter of how many times `prepare_console` has actually
executed its side effects, whether `wcout`/`wcerr` have been imbued with
the current locale (the side effect of the non-`_WIN32`
`prepare_console`), and a fresh-allocation counter for `new`. -/
structure ConsoleState where
  coutBuf : Buf
  cerrBuf : Buf
  prepared : Bool
  prepCount : Nat
  imbued : Bool
  nextId : Nat
deriving DecidableEq, Repr

/-- The compile-time platform choice (`#ifdef _WIN32`). -/
inductive Platform where
  | windows
  | posix
deriving DecidableEq, Repr

/-- `static constexpr bool translate`: `true` under `_WIN32`, else `false`. -/
def translate : Platform → Bool
  | .windows => true
  | .posix => false

/-- `prepare_console()`: under `_WIN32` it calls `_setmode` on `stdout` /
`stderr` (external side effect, recorded only in `prepCount`); otherwise
it imbues `std::wcout` and `std::wcerr` with the current locale. -/
def prepare_console : Platform → ConsoleState → ConsoleState
  | .windows, cs => { cs with prepCount := cs.prepCount + 1 }
  | .posix, cs => { cs with prepCount := cs.prepCount + 1, imbued := true }

/-- A `con_transcoder` object: the members
`std::streambuf *m_coutBuf = {}, *m_cerrBuf = {};` (`none` = null). -/
structure Guard where
  m_coutBuf : Option Buf
  m_cerrBuf : Option Buf
deriving DecidableEq, Repr

/-- `con_transcoder::con_transcoder()`: returns early when `!translate`;
otherwise runs `prepare_console` once per process (guarded by the static
`prepared` flag), then for each of `cout` and `cerr` installs a fresh
`utf8_on_wide_out` unless the current buffer already is one, remembering
the replaced buffer in the corresponding member. -/
def con_transcoder_ctor (plat : Platform) (cs : ConsoleState) :
    Guard × ConsoleState :=
  if translate plat = false then (⟨none, none⟩, cs)
  else
    let cs1 := if cs.prepared then cs
               else { prepare_console plat cs with prepared := true }
    let r2 : Option Buf × ConsoleState :=
      if (cs1.coutBuf.isDec : Bool) then (none, cs1)
      else (some cs1.coutBuf,
            { cs1 with coutBuf := Buf.dec cs1.nextId, nextId := cs1.nextId + 1 })
    let cs2 := r2.2
    let r3 : Option Buf × ConsoleState :=
      if (cs2.cerrBuf.isDec : Bool) then (none, cs2)
      else (some cs2.cerrBuf,
            { cs2 with cerrBuf := Buf.dec cs2.nextId, nextId := cs2.nextId + 1 })
    (⟨r2.1, r3.1⟩, r3.2)

/-- `con_transcoder::~con_transcoder()`: restores each remembered buffer
if the corresponding member is non-null. -/
def con_transcoder_dtor (g : Guard) (cs : ConsoleState) : ConsoleState :=
  let cs1 := match g.m_coutBuf with
             | some b => { cs with coutBuf := b }
             | none => cs
  match g.m_cerrBuf with
  | some b => { cs1 with cerrBuf := b }
  | none => cs1

/-- `con_transcoder(con_transcoder &&) = default;`: the implicitly
defined move constructor move-constructs each member; for the raw
pointers `m_coutBuf` / `m_cerrBuf` that is a copy and the moved-from
object keeps its values.  Returns `(constructed, moved-from)`. -/
def moveCtorGuard (g : Guard) : Guard × Guard := (⟨g.m_coutBuf, g.m_cerrBuf⟩, g)

/-- `con_transcoder &operator=(con_transcoder &&) = default;`: copies the
pointer members from the source, leaving the source unchanged.  Returns
`(assigned-to, moved-from)`. -/
def moveAssignGuard (_dst src : Guard) : Guard × Guard :=
  (⟨src.m_coutBuf, src.m_cerrBuf⟩, src)

/-- Constructing `n` `con_transcoder` instances in sequence (each guard
value is dropped; only the process-wide state is threaded). -/
def ctorTimes (plat : Platform) : Nat → ConsoleState → ConsoleState
  | 0, cs => cs
  | n + 1, cs => ctorTimes plat n (con_transcoder_ctor plat cs).2

/-! ### Bit-level helper lemmas -/

/-- Masking with a sub-mask factors through the coarser mask. -/
lemma submask {ch v : Nat} (a b : Nat) (hab : a &&& b = b) (h : ch &&& a = v) :
    ch &&& b = v &&& b := by
  calc ch &&& b = ch &&& (a &&& b) := by rw [hab]
    _ = (ch &&& a) &&& b := by rw [Nat.and_assoc]
    _ = v &&& b := by rw [h]

lemma cont_and80 {ch : Nat} (h : ch &&& 0xC0 = 0x80) : ch &&& 0x80 = 0x80 := by
  have := submask 0xC0 0x80 (by decide) h
  simpa using this

lemma lead2_and80 {ch : Nat} (h : ch &&& 0xE0 = 0xC0) : ch &&& 0x80 = 0x80 := by
  have := submask 0xE0 0x80 (by decide) h
  simpa using this

lemma lead2_andC0 {ch : Nat} (h : ch &&& 0xE0 = 0xC0) : ch &&& 0xC0 = 0xC0 := by
  have := submask 0xE0 0xC0 (by decide) h
  simpa using this

lemma lead3_and80 {ch : Nat} (h : ch &&& 0xF0 = 0xE0) : ch &&& 0x80 = 0x80 := by
  have := submask 0xF0 0x80 (by decide) h
  simpa using this

lemma lead3_andC0 {ch : Nat} (h : ch &&& 0xF0 = 0xE0) : ch &&& 0xC0 = 0xC0 := by
  have := submask 0xF0 0xC0 (by decide) h
  simpa using this

lemma lead3_andE0 {ch : Nat} (h : ch &&& 0xF0 = 0xE0) : ch &&& 0xE0 = 0xE0 := by
  have := submask 0xF0 0xE0 (by decide) h
  simpa using this

lemma lead4_and80 {ch : Nat} (h : ch &&& 0xF8 = 0xF0) : ch &&& 0x80 = 0x80 := by
  have := submask 0xF8 0x80 (by decide) h
  simpa using this

lemma lead4_andC0 {ch : Nat} (h : ch &&& 0xF8 = 0xF0) : ch &&& 0xC0 = 0xC0 := by
  have := submask 0xF8 0xC0 (by decide) h
  simpa using this

lemma lead4_andE0 {ch : Nat} (h : ch &&& 0xF8 = 0xF0) : ch &&& 0xE0 = 0xE0 := by
  have := submask 0xF8 0xE0 (by decide) h
  simpa using this

lemma lead4_andF0 {ch : Nat} (h : ch &&& 0xF8 = 0xF0) : ch &&& 0xF0 = 0xF0 := by
  have := submask 0xF8 0xF0 (by decide) h
  simpa using this

lemma inval_and80 {ch : Nat} (h : ch &&& 0xF8 = 0xF8) : ch &&& 0x80 = 0x80 := by
  have := submask 0xF8 0x80 (by decide) h
  simpa using this

lemma inval_andC0 {ch : Nat} (h : ch &&& 0xF8 = 0xF8) : ch &&& 0xC0 = 0xC0 := by
  have := submask 0xF8 0xC0 (by decide) h
  simpa using this

lemma inval_andE0 {ch : Nat} (h : ch &&& 0xF8 = 0xF8) : ch &&& 0xE0 = 0xE0 := by
  have := submask 0xF8 0xE0 (by decide) h
  simpa using this

lemma inval_andF0 {ch : Nat} (h : ch &&& 0xF8 = 0xF8) : ch &&& 0xF0 = 0xF0 := by
  have := submask 0xF8 0xF0 (by decide) h
  simpa using this

/-- An `or` of a value below `2 ^ 6` with a 6-bit left shift is addition. -/
lemma lor_shift6 (x q : Nat) (hq : q < 64) : q ||| x <<< 6 = x * 64 + q := by
  have h1 : x <<< 6 = 2 ^ 6 * x := by
    rw [Nat.shiftLeft_eq]; ring
  have hq' : q < 2 ^ 6 := by norm_num [hq]
  rw [h1, Nat.or_comm, ← Nat.mul_add_lt_is_or hq' x]
  ring

lemma mask3F_of_cont : ∀ q, q < 64 → (0x80 + q) &&& 0x3F = q := by decide

/-- `contFold` on a continuation byte `0x80 + q` is base-64 accumulation
(no `uint32_t` wrap-around for in-range points). -/
lemma contFold_eq {p q : Nat} (hq : q < 64) (hp : p < 67108864) :
    contFold p (0x80 + q) = p * 64 + q := by
  have h2 : (2 : Nat) ^ 32 = 4294967296 := by norm_num
  unfold contFold
  rw [mask3F_of_cont q hq, lor_shift6 p q hq, Nat.mod_eq_of_lt (by rw [h2]; omega)]

/-! ### Characterisation of the per-byte step -/

lemma classify_cont {st : DecState} {ch : Nat} (h : ch &&& 0xC0 = 0x80)
    (hl : 0 < st.left) : classify st ch = (st.left - 1, contFold st.point ch) := by
  unfold classify
  rw [if_pos ⟨h, hl⟩]

lemma classify_lead2 {st : DecState} {ch : Nat} (h : ch &&& 0xE0 = 0xC0) :
    classify st ch = (1, ch &&& 0x1F) := by
  unfold classify
  rw [if_neg (by simp [lead2_andC0 h]), if_pos h]

lemma classify_lead3 {st : DecState} {ch : Nat} (h : ch &&& 0xF0 = 0xE0) :
    classify st ch = (2, ch &&& 0x0F) := by
  unfold classify
  rw [if_neg (by simp [lead3_andC0 h]), if_neg (by simp [lead3_andE0 h]), if_pos h]

lemma classify_lead4 {st : DecState} {ch : Nat} (h : ch &&& 0xF8 = 0xF0) :
    classify st ch = (3, ch &&& 0x07) := by
  unfold classify
  rw [if_neg (by simp [lead4_andC0 h]), if_neg (by simp [lead4_andE0 h]),
    if_neg (by simp [lead4_andF0 h]), if_pos h]

lemma classify_lonecont {st : DecState} {ch : Nat} (h : ch &&& 0xC0 = 0x80)
    (hl : ¬0 < st.left) : classify st ch = (-1, st.point) := by
  unfold classify
  rw [if_neg (by simp [hl])]
  rw [if_neg (fun hE => by have := lead2_andC0 hE; omega)]
  rw [if_neg (fun hE => by have := lead3_andC0 hE; omega)]
  rw [if_neg (fun hE => by have := lead4_andC0 hE; omega)]

lemma classify_invalid {st : DecState} {ch : Nat} (h : ch &&& 0xF8 = 0xF8) :
    classify st ch = (-1, st.point) := by
  unfold classify
  rw [if_neg (by simp [inval_andC0 h]), if_neg (by simp [inval_andE0 h]),
    if_neg (by simp [inval_andF0 h]), if_neg (by simp [h])]

lemma stepByteP_ascii {w : Nat} {st : DecState} {ch : Nat} (h : ch &&& 0x80 = 0) :
    stepByteP w st ch = (⟨-1, st.point⟩, [ch % wideMod w]) := by
  unfold stepByteP
  rw [if_pos h]

lemma stepByteP_cont_mid {w : Nat} {st : DecState} {ch : Nat}
    (h : ch &&& 0xC0 = 0x80) (hl : 1 < st.left) :
    stepByteP w st ch = (⟨st.left - 1, contFold st.point ch⟩, []) := by
  unfold stepByteP
  rw [if_neg (by simp [cont_and80 h]), classify_cont h (by omega)]
  exact if_neg (by simp only []; omega)

lemma stepByteP_cont_fin {w : Nat} {st : DecState} {ch : Nat}
    (h : ch &&& 0xC0 = 0x80) (hl : st.left = 1) :
    stepByteP w st ch = emitStep w (contFold st.point ch) := by
  unfold stepByteP
  rw [if_neg (by simp [cont_and80 h]), classify_cont h (by omega)]
  exact if_pos (by simp only []; omega)

lemma stepByteP_lead2 {w : Nat} {st : DecState} {ch : Nat} (h : ch &&& 0xE0 = 0xC0) :
    stepByteP w st ch = (⟨1, ch &&& 0x1F⟩, []) := by
  unfold stepByteP
  rw [if_neg (by simp [lead2_and80 h]), classify_lead2 h]
  exact if_neg (by simp)

lemma stepByteP_lead3 {w : Nat} {st : DecState} {ch : Nat} (h : ch &&& 0xF0 = 0xE0) :
    stepByteP w st ch = (⟨2, ch &&& 0x0F⟩, []) := by
  unfold stepByteP
  rw [if_neg (by simp [lead3_and80 h]), classify_lead3 h]
  exact if_neg (by simp)

lemma stepByteP_lead4 {w : Nat} {st : DecState} {ch : Nat} (h : ch &&& 0xF8 = 0xF0) :
    stepByteP w st ch = (⟨3, ch &&& 0x07⟩, []) := by
  unfold stepByteP
  rw [if_neg (by simp [lead4_and80 h]), classify_lead4 h]
  exact if_neg (by simp)

lemma stepByteP_lonecont {w : Nat} {st : DecState} {ch : Nat}
    (h : ch &&& 0xC0 = 0x80) (hl : ¬0 < st.left) :
    stepByteP w st ch = (⟨-1, st.point⟩, []) := by
  unfold stepByteP
  rw [if_neg (by simp [cont_and80 h]), classify_lonecont h hl]
  exact if_neg (by simp)

lemma stepByteP_invalid {w : Nat} {st : DecState} {ch : Nat} (h : ch &&& 0xF8 = 0xF8) :
    stepByteP w st ch = (⟨-1, st.point⟩, []) := by
  unfold stepByteP
  rw [if_neg (by simp [inval_and80 h]), classify_invalid h]
  exact if_neg (by simp)

lemma emitStep_bmp {w point : Nat}
    (h : point ≤ 0xD7FF ∨ (0xE000 ≤ point ∧ point ≤ 0xFFFF)) :
    emitStep w point = (⟨-1, point⟩, [point % wideMod w]) := by
  unfold emitStep
  rw [if_pos (Or.inr h)]

lemma emitStep_wide {w point : Nat} (h : 4 ≤ w) :
    emitStep w point = (⟨-1, point⟩, [point % wideMod w]) := by
  unfold emitStep
  rw [if_pos (Or.inl h)]

lemma emitStep_pair {w point : Nat} (hw : w < 4) (h1 : 0x10000 ≤ point)
    (h2 : point ≤ 0x10FFFF) :
    emitStep w point =
      (⟨-1, point - 0x10000⟩,
        [((point - 0x10000) >>> 10 + 0xD800) % wideMod w,
         (((point - 0x10000) &&& 0x3FF) + 0xDC00) % wideMod w]) := by
  unfold emitStep
  rw [if_neg (by omega), if_pos ⟨h1, h2⟩]

lemma emitStep_drop {w point : Nat} (hw : w < 4)
    (h : (0xD800 ≤ point ∧ point ≤ 0xDFFF) ∨ 0x10FFFF < point) :
    emitStep w point = (⟨-1, point⟩, []) := by
  unfold emitStep
  rw [if_neg (by omega), if_neg (by omega)]

/-! ### Correspondence between the fallible and pure forms -/

/-- The decoder-state update of one loop iteration does not depend on the
sink: even when a write fails, `output_raw` saves the same `left`/`point`
values that a successful iteration would. -/
lemma stepByte_state (w : Nat) (st : DecState) (sk : SinkState) (ch : Nat) :
    (stepByte w st sk ch).2.1 = (stepByteP w st ch).1 := by
  unfold stepByte stepByteP emitStep
  by_cases h : ch &&& 0x80 = 0
  · cases hp : SinkState.put w sk ch <;> simp [h, hp]
  · by_cases h0 : (classify st ch).1 = 0
    · by_cases he : 4 ≤ w ∨ (classify st ch).2 ≤ 0xD7FF ∨
          (0xE000 ≤ (classify st ch).2 ∧ (classify st ch).2 ≤ 0xFFFF)
      · cases hp : SinkState.put w sk (classify st ch).2 <;> simp [h, h0, he, hp]
      · by_cases hr : 0x10000 ≤ (classify st ch).2 ∧ (classify st ch).2 ≤ 0x10FFFF
        · cases hp : SinkState.put w sk
              (((classify st ch).2 - 0x10000) >>> 10 + 0xD800) with
          | none => simp [h, h0, he, hr, hp]
          | some sk2 =>
            cases hp2 : SinkState.put w sk2
                ((((classify st ch).2 - 0x10000) &&& 0x3FF) + 0xDC00) <;>
              simp [h, h0, he, hr, hp, hp2]
        · simp [h, h0, he, hr]
    · simp [h, h0]

lemma put_none (w : Nat) (L : List Nat) (u : Nat) :
    SinkState.put w ⟨none, L⟩ u = some ⟨none, L ++ [u % wideMod w]⟩ := rfl

/-- With a sink that accepts every unit, one loop iteration succeeds and
appends exactly the units of the pure step to the log. -/
lemma stepByte_none (w : Nat) (st : DecState) (L : List Nat) (ch : Nat) :
    stepByte w st ⟨none, L⟩ ch =
      (true, (stepByteP w st ch).1, ⟨none, L ++ (stepByteP w st ch).2⟩) := by
  unfold stepByte stepByteP emitStep
  by_cases h : ch &&& 0x80 = 0
  · simp [h, put_none]
  · by_cases h0 : (classify st ch).1 = 0
    · by_cases he : 4 ≤ w ∨ (classify st ch).2 ≤ 0xD7FF ∨
          (0xE000 ≤ (classify st ch).2 ∧ (classify st ch).2 ≤ 0xFFFF)
      · simp [h, h0, he, put_none]
      · by_cases hr : 0x10000 ≤ (classify st ch).2 ∧ (classify st ch).2 ≤ 0x10FFFF
        · simp [h, h0, he, hr, put_none]
        · simp [h, h0, he, hr]
    · simp [h, h0]

/-- With a sink that accepts every unit, `output_raw` consumes the whole
buffer, ends in the pure final state, and appends the pure emissions. -/
lemma outputRaw_none (w : Nat) (st : DecState) (L : List Nat) (bs : List Nat) :
    outputRaw w st ⟨none, L⟩ bs =
      (bs.length, (outputRawP w st bs).1, ⟨none, L ++ (outputRawP w st bs).2⟩) := by
  induction bs generalizing st L with
  | nil => simp [outputRaw, outputRawP]
  | cons ch rest ih =>
    simp only [outputRaw, outputRawP, stepByte_none]
    rw [ih]
    simp [List.length_cons]

lemma outputRawP_append (w : Nat) (st : DecState) (xs ys : List Nat) :
    outputRawP w st (xs ++ ys) =
      ((outputRawP w (outputRawP w st xs).1 ys).1,
       (outputRawP w st xs).2 ++ (outputRawP w (outputRawP w st xs).1 ys).2) := by
  induction xs generalizing st with
  | nil => simp [outputRawP]
  | cons ch rest ih => simp [outputRawP, ih]

/-- Splitting a byte stream across any sequence of `output_raw` calls is
the same as one pure run over the concatenation. -/
lemma runCalls_none (w : Nat) (st : DecState) (L : List Nat)
    (bs : List (List Nat)) :
    runCalls w st ⟨none, L⟩ bs =
      ((outputRawP w st bs.flatten).1,
       ⟨none, L ++ (outputRawP w st bs.flatten).2⟩) := by
  induction bs generalizing st L with
  | nil => simp [runCalls, outputRawP]
  | cons b rest ih =>
    simp only [runCalls, outputRaw_none, List.flatten_cons]
    rw [ih, outputRawP_append]
    simp

/-- When every step of a prefix succeeds and the step on the next byte
fails, `output_raw` returns the prefix length plus one (the failing byte
is counted as consumed) and the state and sink of the failing step; the
bytes after the failing one are not examined. -/
lemma outputRaw_fail_at (w : Nat) (st : DecState) (sk : SinkState)
    (pre : List Nat) (ch : Nat) (post : List Nat)
    (hok : stepsOk w st sk pre = true)
    (hfail : (stepByte w (outputRaw w st sk pre).2.1
        (outputRaw w st sk pre).2.2 ch).1 = false) :
    outputRaw w st sk (pre ++ ch :: post) =
      (pre.length + 1,
       (stepByte w (outputRaw w st sk pre).2.1 (outputRaw w st sk pre).2.2 ch).2) := by
  induction pre generalizing st sk with
  | nil =>
    rcases hstep : stepByte w st sk ch with ⟨b, st2, sk2⟩
    simp only [outputRaw, hstep] at hfail ⊢
    subst hfail
    simp [outputRaw, hstep]
  | cons c rest ih =>
    rcases hstep : stepByte w st sk c with ⟨b, st2, sk2⟩
    cases b with
    | false => simp [stepsOk, hstep] at hok
    | true =>
      have hok2 : stepsOk w st2 sk2 rest = true := by
        simpa [stepsOk, hstep] using hok
      have hpre : (outputRaw w st sk (c :: rest)).2 =
          (outputRaw w st2 sk2 rest).2 := by
        simp [outputRaw, hstep]
      rw [hpre] at hfail
      simp only [List.cons_append, outputRaw, hstep]
      simp only [List.append_eq]
      rw [ih st2 sk2 hok2 hfail]
      simp [hpre, List.length_cons]

/-! ### Decoding a complete valid encoding -/

lemma lead2_mask : ∀ q, q < 0x20 →
    (0xC0 + q) &&& 0xE0 = 0xC0 ∧ (0xC0 + q) &&& 0x1F = q := by decide

lemma lead3_mask : ∀ q, q < 0x10 →
    (0xE0 + q) &&& 0xF0 = 0xE0 ∧ (0xE0 + q) &&& 0x0F = q := by decide

lemma lead4_mask : ∀ q, q < 8 →
    (0xF0 + q) &&& 0xF8 = 0xF0 ∧ (0xF0 + q) &&& 0x07 = q := by decide

lemma cont_mask : ∀ q, q < 0x40 → (0x80 + q) &&& 0xC0 = 0x80 := by decide

lemma ascii_mask : ∀ a, a < 0x80 → a &&& 0x80 = 0 := by decide

lemma wideMod_ge16 {w : Nat} (hw : 2 ≤ w) : 65536 ≤ wideMod w := by
  unfold wideMod
  calc (65536 : Nat) = 2 ^ 16 := by norm_num
    _ ≤ 2 ^ (8 * w) := Nat.pow_le_pow_right (by norm_num) (by omega)

lemma wideMod_ge32 {w : Nat} (hw : 4 ≤ w) : 4294967296 ≤ wideMod w := by
  unfold wideMod
  calc (4294967296 : Nat) = 2 ^ 32 := by norm_num
    _ ≤ 2 ^ (8 * w) := Nat.pow_le_pow_right (by norm_num) (by omega)

lemma wideMod_small16 {w p : Nat} (hw : 2 ≤ w) (hp : p < 65536) :
    p % wideMod w = p :=
  Nat.mod_eq_of_lt (lt_of_lt_of_le hp (wideMod_ge16 hw))

lemma wideMod_small32 {w p : Nat} (hw : 4 ≤ w) (hp : p < 4294967296) :
    p % wideMod w = p :=
  Nat.mod_eq_of_lt (lt_of_lt_of_le hp (wideMod_ge32 hw))

lemma shiftRight10_eq {n : Nat} : n >>> 10 = n / 1024 := by
  rw [Nat.shiftRight_eq_div_pow]

lemma outputRawP_cons (w : Nat) (st : DecState) (ch : Nat) (rest : List Nat) :
    outputRawP w st (ch :: rest) =
      ((outputRawP w (stepByteP w st ch).1 rest).1,
       (stepByteP w st ch).2 ++ (outputRawP w (stepByteP w st ch).1 rest).2) := rfl

lemma outputRawP_nil (w : Nat) (st : DecState) : outputRawP w st [] = (st, []) := rfl

/-- Feeding the complete valid UTF-8 encoding of a non-surrogate code
point `p` to the decoder (from any state with no sequence in progress)
resets `left` to `-1` and emits exactly the unit `p`, except that on a
narrow (2- or 3-byte) wide character a supplementary-plane point is
emitted as its UTF-16 surrogate pair. -/
lemma decode_encode {w p : Nat} (p0 : Nat) (hw : 2 ≤ w) (hp : p ≤ 0x10FFFF)
    (hs : ¬(0xD800 ≤ p ∧ p ≤ 0xDFFF)) :
    (outputRawP w ⟨-1, p0⟩ (utf8Encode p)).1.left = -1 ∧
    (outputRawP w ⟨-1, p0⟩ (utf8Encode p)).2 =
      if p < 0x10000 ∨ 4 ≤ w then [p]
      else [(p - 0x10000) >>> 10 + 0xD800, ((p - 0x10000) &&& 0x3FF) + 0xDC00] := by
  rcases Nat.lt_or_ge p 0x80 with hA | hA'
  · -- one-byte (ASCII) encoding
    have henc : utf8Encode p = [p] := by
      unfold utf8Encode; rw [if_pos hA]
    have hrun : outputRawP w ⟨-1, p0⟩ (utf8Encode p) = (⟨-1, p0⟩, [p]) := by
      rw [henc, outputRawP_cons, stepByteP_ascii (ascii_mask p hA)]
      dsimp only
      rw [outputRawP_nil, wideMod_small16 hw (by omega)]
      simp
    rw [hrun, if_pos (Or.inl (by omega))]
    exact ⟨rfl, rfl⟩
  rcases Nat.lt_or_ge p 0x800 with hB | hB'
  · -- two-byte encoding
    have hq1 : p / 0x40 < 0x20 := by omega
    have henc : utf8Encode p = [0xC0 + p / 0x40, 0x80 + p % 0x40] := by
      unfold utf8Encode; rw [if_neg (by omega), if_pos hB]
    have s1 : stepByteP w ⟨-1, p0⟩ (0xC0 + p / 0x40) = (⟨1, p / 0x40⟩, []) := by
      rw [stepByteP_lead2 (lead2_mask _ hq1).1, (lead2_mask _ hq1).2]
    have s2 : stepByteP w ⟨1, p / 0x40⟩ (0x80 + p % 0x40) = (⟨-1, p⟩, [p]) := by
      rw [stepByteP_cont_fin (cont_mask _ (by omega)) rfl]
      have hf : contFold (DecState.point ⟨1, p / 0x40⟩) (0x80 + p % 0x40) = p := by
        show contFold (p / 0x40) (0x80 + p % 0x40) = p
        rw [contFold_eq (by omega) (by omega)]
        omega
      rw [hf, emitStep_bmp (Or.inl (by omega)), wideMod_small16 hw (by omega)]
    have hrun : outputRawP w ⟨-1, p0⟩ (utf8Encode p) = (⟨-1, p⟩, [p]) := by
      rw [henc, outputRawP_cons, s1]
      dsimp only
      rw [outputRawP_cons, s2]
      dsimp only
      rw [outputRawP_nil]
      simp
    rw [hrun, if_pos (Or.inl (by omega))]
    exact ⟨rfl, rfl⟩
  rcases Nat.lt_or_ge p 0x10000 with hC | hC'
  · -- three-byte encoding
    have hq1 : p / 0x1000 < 0x10 := by omega
    have henc : utf8Encode p =
        [0xE0 + p / 0x1000, 0x80 + p / 0x40 % 0x40, 0x80 + p % 0x40] := by
      unfold utf8Encode; rw [if_neg (by omega), if_neg (by omega), if_pos hC]
    have s1 : stepByteP w ⟨-1, p0⟩ (0xE0 + p / 0x1000) = (⟨2, p / 0x1000⟩, []) := by
      rw [stepByteP_lead3 (lead3_mask _ hq1).1, (lead3_mask _ hq1).2]
    have s2 : stepByteP w ⟨2, p / 0x1000⟩ (0x80 + p / 0x40 % 0x40) =
        (⟨1, p / 0x40⟩, []) := by
      rw [stepByteP_cont_mid (cont_mask _ (by omega)) (by norm_num)]
      have hf : contFold (DecState.point ⟨2, p / 0x1000⟩) (0x80 + p / 0x40 % 0x40) =
          p / 0x40 := by
        show contFold (p / 0x1000) (0x80 + p / 0x40 % 0x40) = p / 0x40
        rw [contFold_eq (by omega) (by omega)]
        omega
      rw [hf]
      norm_num
    have s3 : stepByteP w ⟨1, p / 0x40⟩ (0x80 + p % 0x40) = (⟨-1, p⟩, [p]) := by
      rw [stepByteP_cont_fin (cont_mask _ (by omega)) rfl]
      have hf : contFold (DecState.point ⟨1, p / 0x40⟩) (0x80 + p % 0x40) = p := by
        show contFold (p / 0x40) (0x80 + p % 0x40) = p
        rw [contFold_eq (by omega) (by omega)]
        omega
      rw [hf, emitStep_bmp (by omega), wideMod_small16 hw (by omega)]
    have hrun : outputRawP w ⟨-1, p0⟩ (utf8Encode p) = (⟨-1, p⟩, [p]) := by
      rw [henc, outputRawP_cons, s1]
      dsimp only
      rw [outputRawP_cons, s2]
      dsimp only
      rw [outputRawP_cons, s3]
      dsimp only
      rw [outputRawP_nil]
      simp
    rw [hrun, if_pos (Or.inl (by omega))]
    exact ⟨rfl, rfl⟩
  · -- four-byte encoding
    have hq1 : p / 0x40000 < 8 := by omega
    have henc : utf8Encode p =
        [0xF0 + p / 0x40000, 0x80 + p / 0x1000 % 0x40,
         0x80 + p / 0x40 % 0x40, 0x80 + p % 0x40] := by
      unfold utf8Encode; rw [if_neg (by omega), if_neg (by omega), if_neg (by omega)]
    have s1 : stepByteP w ⟨-1, p0⟩ (0xF0 + p / 0x40000) = (⟨3, p / 0x40000⟩, []) := by
      rw [stepByteP_lead4 (lead4_mask _ hq1).1, (lead4_mask _ hq1).2]
    have s2 : stepByteP w ⟨3, p / 0x40000⟩ (0x80 + p / 0x1000 % 0x40) =
        (⟨2, p / 0x1000⟩, []) := by
      rw [stepByteP_cont_mid (cont_mask _ (by omega)) (by norm_num)]
      have hf : contFold (DecState.point ⟨3, p / 0x40000⟩) (0x80 + p / 0x1000 % 0x40) =
          p / 0x1000 := by
        show contFold (p / 0x40000) (0x80 + p / 0x1000 % 0x40) = p / 0x1000
        rw [contFold_eq (by omega) (by omega)]
        omega
      rw [hf]
      norm_num
    have s3 : stepByteP w ⟨2, p / 0x1000⟩ (0x80 + p / 0x40 % 0x40) =
        (⟨1, p / 0x40⟩, []) := by
      rw [stepByteP_cont_mid (cont_mask _ (by omega)) (by norm_num)]
      have hf : contFold (DecState.point ⟨2, p / 0x1000⟩) (0x80 + p / 0x40 % 0x40) =
          p / 0x40 := by
        show contFold (p / 0x1000) (0x80 + p / 0x40 % 0x40) = p / 0x40
        rw [contFold_eq (by omega) (by omega)]
        omega
      rw [hf]
      norm_num
    have hf4 : contFold (DecState.point ⟨1, p / 0x40⟩) (0x80 + p % 0x40) = p := by
      show contFold (p / 0x40) (0x80 + p % 0x40) = p
      rw [contFold_eq (by omega) (by omega)]
      omega
    have s4e : stepByteP w ⟨1, p / 0x40⟩ (0x80 + p % 0x40) = emitStep w p := by
      rw [stepByteP_cont_fin (cont_mask _ (by omega)) rfl, hf4]
    rcases Nat.lt_or_ge w 4 with hw4 | hw4
    · -- narrow wide character: surrogate pair
      have hhi : (p - 0x10000) >>> 10 + 0xD800 < 65536 := by
        rw [shiftRight10_eq]
        omega
      have hlo : ((p - 0x10000) &&& 0x3FF) + 0xDC00 < 65536 := by
        have := @Nat.and_le_right (p - 0x10000) 0x3FF
        omega
      have s4p : stepByteP w ⟨1, p / 0x40⟩ (0x80 + p % 0x40) =
          (⟨-1, p - 0x10000⟩,
           [(p - 0x10000) >>> 10 + 0xD800, ((p - 0x10000) &&& 0x3FF) + 0xDC00]) := by
        rw [s4e, emitStep_pair hw4 (by omega) hp, wideMod_small16 hw hhi,
          wideMod_small16 hw hlo]
      have hrun : outputRawP w ⟨-1, p0⟩ (utf8Encode p) =
          (⟨-1, p - 0x10000⟩,
           [(p - 0x10000) >>> 10 + 0xD800, ((p - 0x10000) &&& 0x3FF) + 0xDC00]) := by
        rw [henc, outputRawP_cons, s1]
        dsimp only
        rw [outputRawP_cons, s2]
        dsimp only
        rw [outputRawP_cons, s3]
        dsimp only
        rw [outputRawP_cons, s4p]
        dsimp only
        rw [outputRawP_nil]
        simp
      rw [hrun, if_neg (by omega)]
      exact ⟨rfl, rfl⟩
    · -- wide character of at least four bytes: single unit
      have s4w : stepByteP w ⟨1, p / 0x40⟩ (0x80 + p % 0x40) = (⟨-1, p⟩, [p]) := by
        rw [s4e, emitStep_wide hw4, wideMod_small32 hw4 (by omega)]
      have hrun : outputRawP w ⟨-1, p0⟩ (utf8Encode p) = (⟨-1, p⟩, [p]) := by
        rw [henc, outputRawP_cons, s1]
        dsimp only
        rw [outputRawP_cons, s2]
        dsimp only
        rw [outputRawP_cons, s3]
        dsimp only
        rw [outputRawP_cons, s4w]
        dsimp only
        rw [outputRawP_nil]
        simp
      rw [hrun, if_pos (Or.inr hw4)]
      exact ⟨rfl, rfl⟩

/-! ### Malformed input and the decoder invariant -/

/-- Total length (in bytes) of the multi-byte sequence started by a lead
byte, read off the `else if` ladder of `output_raw`; `none` for bytes
that do not start a sequence. -/
def leadLen (l : Nat) : Option Nat :=
  if l &&& 0xE0 = 0xC0 then some 2
  else if l &&& 0xF0 = 0xE0 then some 3
  else if l &&& 0xF8 = 0xF0 then some 4
  else none

/-- The payload bits a lead byte seeds into `point`. -/
def leadPayload (l : Nat) : Nat :=
  if l &&& 0xE0 = 0xC0 then l &&& 0x1F
  else if l &&& 0xF0 = 0xE0 then l &&& 0x0F
  else l &&& 0x07

/-- The decoder's `left` field only ever holds `-1`, `1`, `2` or `3`
between loop iterations — never `0`. -/
def SimpleInv (st : DecState) : Prop :=
  st.left = -1 ∨ st.left = 1 ∨ st.left = 2 ∨ st.left = 3

/-- Accumulation invariant: whenever a sequence is in progress
(`left > 0`), the input consumed so far ends in a lead byte followed by
the continuation bytes already folded, `left` counts the continuations
still missing, and `point` is exactly the fold of the lead payload over
those continuation bytes. -/
def AccInv (bs : List Nat) (st : DecState) : Prop :=
  0 < st.left →
  ∃ pre l cs n, bs = pre ++ l :: cs ∧ leadLen l = some n ∧
    (∀ c ∈ cs, c &&& 0xC0 = 0x80) ∧
    st.left + cs.length = (n : Int) - 1 ∧
    st.point = List.foldl contFold (leadPayload l) cs

lemma lead_step {l n : Nat} (w : Nat) (st : DecState) (hl : leadLen l = some n) :
    stepByteP w st l = (⟨(n : Int) - 1, leadPayload l⟩, []) := by
  unfold leadLen at hl
  by_cases h2 : l &&& 0xE0 = 0xC0
  · rw [if_pos h2] at hl
    injection hl with hn
    subst hn
    rw [stepByteP_lead2 h2]
    unfold leadPayload
    rw [if_pos h2]
    norm_num
  · rw [if_neg h2] at hl
    by_cases h3 : l &&& 0xF0 = 0xE0
    · rw [if_pos h3] at hl
      injection hl with hn
      subst hn
      rw [stepByteP_lead3 h3]
      unfold leadPayload
      rw [if_neg h2, if_pos h3]
      norm_num
    · rw [if_neg h3] at hl
      by_cases h4 : l &&& 0xF8 = 0xF0
      · rw [if_pos h4] at hl
        injection hl with hn
        subst hn
        rw [stepByteP_lead4 h4]
        unfold leadPayload
        rw [if_neg h2, if_neg h3]
        norm_num
      · rw [if_neg h4] at hl
        exact absurd hl (by simp)

/-- Feeding continuation bytes while more are expected than supplied
keeps decrementing `left`, folds the payloads, and emits nothing. -/
lemma conts_run (w : Nat) (st : DecState) (cs : List Nat)
    (hc : ∀ c ∈ cs, c &&& 0xC0 = 0x80) (hlen : (cs.length : Int) < st.left) :
    (outputRawP w st cs).1 =
      ⟨st.left - cs.length, List.foldl contFold st.point cs⟩ ∧
    (outputRawP w st cs).2 = [] := by
  induction cs generalizing st with
  | nil =>
    constructor
    · rw [outputRawP_nil]
      simp
    · rfl
  | cons c rest ih =>
    have hcc : c &&& 0xC0 = 0x80 := hc c (by simp)
    have hone : 1 < st.left := by
      simp only [List.length_cons] at hlen
      push_cast at hlen
      omega
    rw [outputRawP_cons, stepByteP_cont_mid hcc hone]
    dsimp only
    have hrest := ih ⟨st.left - 1, contFold st.point c⟩
      (fun d hd => hc d (by simp [hd]))
      (by
        simp only [List.length_cons] at hlen
        push_cast at hlen ⊢
        show (rest.length : Int) < st.left - 1
        omega)
    constructor
    · rw [hrest.1]
      simp only [List.length_cons, List.foldl_cons]
      congr 1
      push_cast
      ring
    · rw [hrest.2]
      simp

lemma stepByteP_other {ch : Nat} (w : Nat) (st : DecState)
    (hA : ¬ch &&& 0x80 = 0) (hc : ¬ch &&& 0xC0 = 0x80)
    (h2 : ¬ch &&& 0xE0 = 0xC0) (h3 : ¬ch &&& 0xF0 = 0xE0)
    (h4 : ¬ch &&& 0xF8 = 0xF0) :
    stepByteP w st ch = (⟨-1, st.point⟩, []) := by
  have hcl : classify st ch = (-1, st.point) := by
    unfold classify
    rw [if_neg (by simp [hc]), if_neg h2, if_neg h3, if_neg h4]
  simp only [stepByteP, hcl]
  rw [if_neg hA]
  exact if_neg (by simp)

lemma emitStep_left (w point : Nat) : (emitStep w point).1.left = -1 := by
  unfold emitStep
  split
  · rfl
  split
  · rfl
  · rfl

lemma outputRawP_single (w : Nat) (st : DecState) (c : Nat) :
    (outputRawP w st [c]).1 = (stepByteP w st c).1 := rfl

/-- Every per-byte step of `output_raw` keeps `left` in `{-1, 1, 2, 3}`. -/
lemma stepByteP_simpleInv (w : Nat) (st : DecState) (ch : Nat) (h : SimpleInv st) :
    SimpleInv (stepByteP w st ch).1 := by
  by_cases hA : ch &&& 0x80 = 0
  · rw [stepByteP_ascii hA]
    exact Or.inl rfl
  by_cases hc : ch &&& 0xC0 = 0x80
  · by_cases hl : 0 < st.left
    · rcases h with h | h | h | h
      · omega
      · rw [stepByteP_cont_fin hc h]
        exact Or.inl (emitStep_left w _)
      · rw [stepByteP_cont_mid hc (by omega)]
        refine Or.inr (Or.inl ?_)
        show st.left - 1 = 1
        omega
      · rw [stepByteP_cont_mid hc (by omega)]
        refine Or.inr (Or.inr (Or.inl ?_))
        show st.left - 1 = 2
        omega
    · rw [stepByteP_lonecont hc hl]
      exact Or.inl rfl
  by_cases h2 : ch &&& 0xE0 = 0xC0
  · rw [stepByteP_lead2 h2]
    exact Or.inr (Or.inl rfl)
  by_cases h3 : ch &&& 0xF0 = 0xE0
  · rw [stepByteP_lead3 h3]
    exact Or.inr (Or.inr (Or.inl rfl))
  by_cases h4 : ch &&& 0xF8 = 0xF0
  · rw [stepByteP_lead4 h4]
    exact Or.inr (Or.inr (Or.inr rfl))
  · rw [stepByteP_other w st hA hc h2 h3 h4]
    exact Or.inl rfl

lemma outputRaw_single (w : Nat) (st : DecState) (sk : SinkState) (c : Nat) :
    (outputRaw w st sk [c]).2 = (stepByte w st sk c).2 := by
  rcases hstep : stepByte w st sk c with ⟨b, st2, sk2⟩
  cases b <;> simp [outputRaw, hstep]

/-- The state left behind by `overflow` on an actual byte coincides with
the pure per-byte step (write failures do not change the saved state). -/
lemma overflow_state (w : Nat) (st : DecState) (sk : SinkState) (b : Nat) :
    (overflow w st sk (some b)).2.1 = (stepByteP w st b).1 := by
  unfold overflow
  by_cases hA : b &&& 0x80 = 0
  · rw [stepByteP_ascii hA]
    cases hp : SinkState.put w sk b <;> simp [hA, hp]
  · simp only [if_neg hA]
    have h1 : (outputRaw w st sk [b]).2.1 = (stepByteP w st b).1 := by
      rw [outputRaw_single]
      exact stepByte_state w st sk b
    simpa using h1

/-- `AccInv` holds along every pure run from a fresh decoder state. -/
lemma accInv_run (w p0 : Nat) (bs : List Nat) :
    AccInv bs (outputRawP w ⟨-1, p0⟩ bs).1 := by
  induction bs using List.reverseRecOn with
  | nil =>
    intro hpos
    rw [outputRawP_nil] at hpos
    exact absurd hpos (by norm_num)
  | append_singleton xs ch ih =>
    rw [outputRawP_append]
    intro hpos
    rw [outputRawP_single] at hpos ⊢
    by_cases hA : ch &&& 0x80 = 0
    · rw [stepByteP_ascii hA] at hpos
      exact absurd hpos (by norm_num)
    by_cases hc : ch &&& 0xC0 = 0x80
    · by_cases hl : 0 < (outputRawP w ⟨-1, p0⟩ xs).1.left
      · by_cases hone : (outputRawP w ⟨-1, p0⟩ xs).1.left = 1
        · rw [stepByteP_cont_fin hc hone] at hpos
          have := emitStep_left w (contFold (outputRawP w ⟨-1, p0⟩ xs).1.point ch)
          omega
        · have hgt : 1 < (outputRawP w ⟨-1, p0⟩ xs).1.left := by omega
          rcases ih hl with ⟨pre, l, cs, n, hsplit, hlead, hconts, hleft, hpoint⟩
          refine ⟨pre, l, cs ++ [ch], n, ?_, hlead, ?_, ?_, ?_⟩
          · rw [hsplit]
            simp
          · intro d hd
            rcases List.mem_append.1 hd with hd | hd
            · exact hconts d hd
            · simp at hd
              subst hd
              exact hc
          · rw [stepByteP_cont_mid hc hgt]
            simp only [List.length_append, List.length_cons, List.length_nil]
            push_cast
            show (outputRawP w ⟨-1, p0⟩ xs).1.left - 1 + (cs.length + (0 + 1)) =
              (n : Int) - 1
            omega
          · rw [stepByteP_cont_mid hc hgt]
            show contFold (outputRawP w ⟨-1, p0⟩ xs).1.point ch =
              List.foldl contFold (leadPayload l) (cs ++ [ch])
            rw [List.foldl_append, hpoint]
            rfl
      · rw [stepByteP_lonecont hc hl] at hpos
        exact absurd hpos (by norm_num)
    by_cases h2 : ch &&& 0xE0 = 0xC0
    · refine ⟨xs, ch, [], 2, by simp, ?_, by simp, ?_, ?_⟩
      · unfold leadLen
        rw [if_pos h2]
      · rw [stepByteP_lead2 h2]
        show (1 : Int) + (0 : Nat) = (2 : Int) - 1
        norm_num
      · rw [stepByteP_lead2 h2]
        show ch &&& 0x1F = List.foldl contFold (leadPayload ch) []
        unfold leadPayload
        rw [if_pos h2]
        rfl
    by_cases h3 : ch &&& 0xF0 = 0xE0
    · refine ⟨xs, ch, [], 3, by simp, ?_, by simp, ?_, ?_⟩
      · unfold leadLen
        rw [if_neg h2, if_pos h3]
      · rw [stepByteP_lead3 h3]
        show (2 : Int) + (0 : Nat) = (3 : Int) - 1
        norm_num
      · rw [stepByteP_lead3 h3]
        show ch &&& 0x0F = List.foldl contFold (leadPayload ch) []
        unfold leadPayload
        rw [if_neg h2, if_pos h3]
        rfl
    by_cases h4 : ch &&& 0xF8 = 0xF0
    · refine ⟨xs, ch, [], 4, by simp, ?_, by simp, ?_, ?_⟩
      · unfold leadLen
        rw [if_neg h2, if_neg h3, if_pos h4]
      · rw [stepByteP_lead4 h4]
        show (3 : Int) + (0 : Nat) = (4 : Int) - 1
        norm_num
      · rw [stepByteP_lead4 h4]
        show ch &&& 0x07 = List.foldl contFold (leadPayload ch) []
        unfold leadPayload
        rw [if_neg h2, if_neg h3]
        rfl
    · rw [stepByteP_other w _ hA hc h2 h3 h4] at hpos
      exact absurd hpos (by norm_num)

/-! ### Scope guard helper lemmas -/

lemma dtor_none (cs : ConsoleState) : con_transcoder_dtor ⟨none, none⟩ cs = cs := rfl

lemma dtor_some (b1 b2 : Buf) (cs : ConsoleState) :
    con_transcoder_dtor ⟨some b1, some b2⟩ cs =
      { cs with coutBuf := b1, cerrBuf := b2 } := rfl

/-- Constructing on the translating platform with no transcoder installed
installs fresh transcoders on both streams and remembers the old buffers. -/
lemma ctor_win_fresh (cs : ConsoleState) (h1 : cs.coutBuf.isDec = false)
    (h2 : cs.cerrBuf.isDec = false) :
    con_transcoder_ctor .windows cs =
      (⟨some cs.coutBuf, some cs.cerrBuf⟩,
       { cs with coutBuf := Buf.dec cs.nextId, cerrBuf := Buf.dec (cs.nextId + 1),
                 prepared := true,
                 prepCount := cs.prepCount + (if cs.prepared then 0 else 1),
                 nextId := cs.nextId + 2 }) := by
  unfold con_transcoder_ctor
  rw [if_neg (by decide)]
  by_cases hp : cs.prepared <;>
    simp [hp, prepare_console, h1, h2]

/-- Constructing on the translating platform when both streams already
hold a transcoder installs nothing and leaves the buffers untouched. -/
lemma ctor_win_installed (cs : ConsoleState) (h1 : cs.coutBuf.isDec = true)
    (h2 : cs.cerrBuf.isDec = true) :
    con_transcoder_ctor .windows cs =
      (⟨none, none⟩,
       { cs with prepared := true,
                 prepCount := cs.prepCount + (if cs.prepared then 0 else 1) }) := by
  unfold con_transcoder_ctor
  rw [if_neg (by decide)]
  by_cases hp : cs.prepared
  · simp [hp, prepare_console, h1, h2]
    rw [← hp]
  · simp [hp, prepare_console, h1, h2]

/-- Whatever the stream buffers hold, constructing on the translating
platform sets `prepared` and bumps `prepCount` only on the first time. -/
lemma ctor_win_prep (cs : ConsoleState) :
    (con_transcoder_ctor .windows cs).2.prepared = true ∧
    (con_transcoder_ctor .windows cs).2.prepCount =
      cs.prepCount + (if cs.prepared then 0 else 1) := by
  unfold con_transcoder_ctor
  rw [if_neg (by decide)]
  by_cases hp : cs.prepared <;>
    by_cases hc1 : (cs.coutBuf.isDec : Bool) <;>
      by_cases hc2 : (cs.cerrBuf.isDec : Bool) <;>
        simp [hp, hc1, hc2, prepare_console]

lemma ctorTimes_prepared (m : Nat) (cs : ConsoleState) (h : cs.prepared = true) :
    (ctorTimes .windows m cs).prepCount = cs.prepCount := by
  induction m generalizing cs with
  | zero => rfl
  | succ k ih =>
    have hc := ctor_win_prep cs
    show (ctorTimes .windows k (con_transcoder_ctor .windows cs).2).prepCount =
      cs.prepCount
    rw [ih _ hc.1, hc.2, h]
    simp

/-! ### Further helper lemmas for the claims -/

lemma wideMod_ge8 {w : Nat} (hw : 1 ≤ w) : 256 ≤ wideMod w := by
  unfold wideMod
  calc (256 : Nat) = 2 ^ 8 := by norm_num
    _ ≤ 2 ^ (8 * w) := Nat.pow_le_pow_right (by norm_num) (by omega)

lemma wideMod_small8 {w p : Nat} (hw : 1 ≤ w) (hp : p < 256) :
    p % wideMod w = p :=
  Nat.mod_eq_of_lt (lt_of_lt_of_le hp (wideMod_ge8 hw))

lemma contFold_lt (p c : Nat) : contFold p c < 4294967296 := by
  have h2 : (2 : Nat) ^ 32 = 4294967296 := by norm_num
  rw [← h2]
  unfold contFold
  exact Nat.mod_lt _ (by norm_num)

/-- Processing a lead byte followed by too few continuation bytes leaves
a sequence in progress (`left > 0` still expected bytes) and emits
nothing. -/
lemma trunc_run {l n : Nat} (w p0 : Nat) (cs : List Nat)
    (hl : leadLen l = some n) (hc : ∀ c ∈ cs, c &&& 0xC0 = 0x80)
    (hlen : cs.length + 2 ≤ n) :
    (outputRawP w ⟨-1, p0⟩ (l :: cs)).1.left = (n : Int) - 1 - cs.length ∧
    (outputRawP w ⟨-1, p0⟩ (l :: cs)).2 = [] := by
  have h := conts_run w ⟨(n : Int) - 1, leadPayload l⟩ cs hc
    (by show (cs.length : Int) < (n : Int) - 1; omega)
  constructor
  · rw [outputRawP_cons, lead_step w _ hl]
    dsimp only
    rw [h.1]
  · rw [outputRawP_cons, lead_step w _ hl]
    dsimp only
    rw [h.2]
    rfl

/-- While the four bytes of a supplementary-plane encoding are still
incomplete, nothing is emitted. -/
lemma decode4_prefix_empty (w p p0 : Nat) (h1 : 0x10000 ≤ p)
    (h2 : p ≤ 0x10FFFF) :
    ∀ k, k < 4 → (outputRawP w ⟨-1, p0⟩ ((utf8Encode p).take k)).2 = [] := by
  have hq1 : p / 0x40000 < 8 := by omega
  have henc : utf8Encode p =
      [0xF0 + p / 0x40000, 0x80 + p / 0x1000 % 0x40,
       0x80 + p / 0x40 % 0x40, 0x80 + p % 0x40] := by
    unfold utf8Encode
    rw [if_neg (by omega), if_neg (by omega), if_neg (by omega)]
  have s1 : stepByteP w ⟨-1, p0⟩ (0xF0 + p / 0x40000) = (⟨3, p / 0x40000⟩, []) := by
    rw [stepByteP_lead4 (lead4_mask _ hq1).1, (lead4_mask _ hq1).2]
  have s2 : stepByteP w ⟨3, p / 0x40000⟩ (0x80 + p / 0x1000 % 0x40) =
      (⟨2, p / 0x1000⟩, []) := by
    rw [stepByteP_cont_mid (cont_mask _ (by omega)) (by norm_num)]
    have hf : contFold (DecState.point ⟨3, p / 0x40000⟩) (0x80 + p / 0x1000 % 0x40) =
        p / 0x1000 := by
      show contFold (p / 0x40000) (0x80 + p / 0x1000 % 0x40) = p / 0x1000
      rw [contFold_eq (by omega) (by omega)]
      omega
    rw [hf]
    norm_num
  have s3 : stepByteP w ⟨2, p / 0x1000⟩ (0x80 + p / 0x40 % 0x40) =
      (⟨1, p / 0x40⟩, []) := by
    rw [stepByteP_cont_mid (cont_mask _ (by omega)) (by norm_num)]
    have hf : contFold (DecState.point ⟨2, p / 0x1000⟩) (0x80 + p / 0x40 % 0x40) =
        p / 0x40 := by
      show contFold (p / 0x1000) (0x80 + p / 0x40 % 0x40) = p / 0x40
      rw [contFold_eq (by omega) (by omega)]
      omega
    rw [hf]
    norm_num
  intro k hk
  interval_cases k
  · rw [henc]
    rfl
  · have ht : (utf8Encode p).take 1 = [0xF0 + p / 0x40000] := by rw [henc]; rfl
    rw [ht, outputRawP_cons, s1]
    dsimp only
    rw [outputRawP_nil]
    simp
  · have ht : (utf8Encode p).take 2 =
        [0xF0 + p / 0x40000, 0x80 + p / 0x1000 % 0x40] := by rw [henc]; rfl
    rw [ht, outputRawP_cons, s1]
    dsimp only
    rw [outputRawP_cons, s2]
    dsimp only
    rw [outputRawP_nil]
    simp
  · have ht : (utf8Encode p).take 3 =
        [0xF0 + p / 0x40000, 0x80 + p / 0x1000 % 0x40, 0x80 + p / 0x40 % 0x40] := by
      rw [henc]
      rfl
    rw [ht, outputRawP_cons, s1]
    dsimp only
    rw [outputRawP_cons, s2]
    dsimp only
    rw [outputRawP_cons, s3]
    dsimp only
    rw [outputRawP_nil]
    simp

/-! ### Claim theorems -/

/-- C3: For every byte sequence `b` that is the one complete valid UTF-8
encoding of a code point `p` in `[0x0000, 0xD7FF]` or `[0xE000, 0xFFFF]`,
feeding `b` to the decoder starting from the initial state — in one
`output_raw` call or split arbitrarily across calls — writes exactly one
wide unit to the sink, equal to `p`. -/
theorem decoder_bmp_exactly_one_unit (w p p0 : Nat) (bs : List (List Nat))
    (hw : 2 ≤ w) (hp : p ≤ 0xD7FF ∨ (0xE000 ≤ p ∧ p ≤ 0xFFFF))
    (hb : bs.flatten = utf8Encode p) :
    (runCalls w ⟨-1, p0⟩ ⟨none, []⟩ bs).2.log = [p] := by
  rw [runCalls_none, hb]
  have h := @decode_encode w p p0 hw (by omega) (by omega)
  show [] ++ (outputRawP w ⟨-1, p0⟩ (utf8Encode p)).2 = [p]
  rw [h.2, if_pos (Or.inl (by omega))]
  rfl

/-- Witness for C3: the encoding of U+4E16 split as `[E4] ++ [B8 96]`
yields exactly the single unit `0x4E16`. -/
theorem decoder_bmp_exactly_one_unit_witness :
    2 ≤ 2 ∧ ((0x4E16 : Nat) ≤ 0xD7FF ∨ (0xE000 ≤ 0x4E16 ∧ 0x4E16 ≤ 0xFFFF)) ∧
    ([[0xE4], [0xB8, 0x96]] : List (List Nat)).flatten = utf8Encode 0x4E16 ∧
    (runCalls 2 ⟨-1, 0⟩ ⟨none, []⟩ [[0xE4], [0xB8, 0x96]]).2.log = [0x4E16] :=
  ⟨by norm_num, by norm_num, by decide,
   decoder_bmp_exactly_one_unit 2 0x4E16 0 [[0xE4], [0xB8, 0x96]]
     (by norm_num) (by norm_num) (by decide)⟩

/-- C4: For the valid 4-byte encoding of `p` in `[0x10000, 0x10FFFF]`
with a 2-byte wide unit, the decoder emits exactly the surrogate pair
`(p - 0x10000) >> 10 + 0xD800`, `((p - 0x10000) & 0x3FF) + 0xDC00` —
however the four bytes are split across calls — and emits nothing while
any strict prefix of the four bytes has been fed. -/
theorem decoder_surrogate_pair (p p0 : Nat) (bs : List (List Nat))
    (h1 : 0x10000 ≤ p) (h2 : p ≤ 0x10FFFF)
    (hb : bs.flatten = utf8Encode p) :
    (runCalls 2 ⟨-1, p0⟩ ⟨none, []⟩ bs).2.log =
      [(p - 0x10000) >>> 10 + 0xD800, ((p - 0x10000) &&& 0x3FF) + 0xDC00] ∧
    ∀ k, k < 4 → (outputRawP 2 ⟨-1, p0⟩ ((utf8Encode p).take k)).2 = [] := by
  constructor
  · rw [runCalls_none, hb]
    have h := @decode_encode 2 p p0 (by norm_num) h2 (by omega)
    show [] ++ (outputRawP 2 ⟨-1, p0⟩ (utf8Encode p)).2 = _
    rw [h.2, if_neg (by omega)]
    rfl
  · exact decode4_prefix_empty 2 p p0 h1 h2

/-- Witness for C4: U+1F600 fed one byte per call emits `D83D DE00`,
and nothing before the fourth byte. -/
theorem decoder_surrogate_pair_witness :
    (0x10000 : Nat) ≤ 0x1F600 ∧ (0x1F600 : Nat) ≤ 0x10FFFF ∧
    ([[0xF0], [0x9F], [0x98], [0x80]] : List (List Nat)).flatten =
      utf8Encode 0x1F600 ∧
    ((runCalls 2 ⟨-1, 0⟩ ⟨none, []⟩ [[0xF0], [0x9F], [0x98], [0x80]]).2.log =
      [(0x1F600 - 0x10000) >>> 10 + 0xD800,
       ((0x1F600 - 0x10000) &&& 0x3FF) + 0xDC00] ∧
     ∀ k, k < 4 → (outputRawP 2 ⟨-1, 0⟩ ((utf8Encode 0x1F600).take k)).2 = []) :=
  ⟨by norm_num, by norm_num, by decide,
   decoder_surrogate_pair 0x1F600 0 [[0xF0], [0x9F], [0x98], [0x80]]
     (by norm_num) (by norm_num) (by decide)⟩

/-- C5: If a wide-unit write fails during `output_raw`, processing stops
immediately: the returned count equals the number of bytes consumed up to
and including the byte whose emission failed, and the bytes after it are
neither examined nor emitted (the result is the same as if the buffer
ended at the failing byte). -/
theorem output_raw_stops_at_failed_write (w : Nat) (st : DecState)
    (sk : SinkState) (pre : List Nat) (ch : Nat) (post : List Nat)
    (hok : stepsOk w st sk pre = true)
    (hfail : (stepByte w (outputRaw w st sk pre).2.1
        (outputRaw w st sk pre).2.2 ch).1 = false) :
    (outputRaw w st sk (pre ++ ch :: post)).1 = pre.length + 1 ∧
    outputRaw w st sk (pre ++ ch :: post) = outputRaw w st sk (pre ++ [ch]) := by
  have h1 := outputRaw_fail_at w st sk pre ch post hok hfail
  have h2 := outputRaw_fail_at w st sk pre ch [] hok hfail
  constructor
  · rw [h1]
  · rw [h1, h2]

/-- Witness for C5: with a sink that accepts exactly one unit, the 4-byte
sequence for U+1F600 fails while writing the low surrogate; the count is
4 (the failing byte included) and the trailing byte `0x41` is ignored. -/
theorem output_raw_stops_at_failed_write_witness :
    stepsOk 2 ⟨-1, 0⟩ ⟨some 1, []⟩ [0xF0, 0x9F, 0x98] = true ∧
    (stepByte 2 (outputRaw 2 ⟨-1, 0⟩ ⟨some 1, []⟩ [0xF0, 0x9F, 0x98]).2.1
      (outputRaw 2 ⟨-1, 0⟩ ⟨some 1, []⟩ [0xF0, 0x9F, 0x98]).2.2 0x80).1 = false ∧
    (outputRaw 2 ⟨-1, 0⟩ ⟨some 1, []⟩
        ([0xF0, 0x9F, 0x98] ++ 0x80 :: [0x41])).1 = [0xF0, 0x9F, 0x98].length + 1 ∧
    outputRaw 2 ⟨-1, 0⟩ ⟨some 1, []⟩ ([0xF0, 0x9F, 0x98] ++ 0x80 :: [0x41]) =
      outputRaw 2 ⟨-1, 0⟩ ⟨some 1, []⟩ ([0xF0, 0x9F, 0x98] ++ [0x80]) := by
  refine ⟨by decide, by decide, ?_⟩
  exact output_raw_stops_at_failed_write 2 ⟨-1, 0⟩ ⟨some 1, []⟩
    [0xF0, 0x9F, 0x98] 0x80 [0x41] (by decide) (by decide)

/-- C6: Malformed UTF-8 never raises and never emits units for the
malformed bytes: (1) a truncated multi-byte sequence interrupted by an
ASCII byte emits only the ASCII unit and resets the decoder; (2) a lone
continuation byte with no sequence in progress emits nothing and leaves
the state untouched; (3) an invalid lead byte (`0xF8..0xFF`) emits
nothing and resets the state; (4) after any prefix that leaves `left`
reset, the next well-formed (BMP, non-surrogate) sequence decodes to
exactly its code point. -/
theorem malformed_input_silent_resync :
    (∀ w p0 a l n, 1 ≤ w → a < 0x80 → leadLen l = some n →
      ∀ cs, (∀ c ∈ cs, c &&& 0xC0 = 0x80) → cs.length + 2 ≤ n →
        (outputRawP w ⟨-1, p0⟩ (l :: cs ++ [a])).2 = [a] ∧
        (outputRawP w ⟨-1, p0⟩ (l :: cs ++ [a])).1.left = -1) ∧
    (∀ w p0 c, c &&& 0xC0 = 0x80 →
      stepByteP w ⟨-1, p0⟩ c = (⟨-1, p0⟩, [])) ∧
    (∀ w (st : DecState) c, c &&& 0xF8 = 0xF8 →
      stepByteP w st c = (⟨-1, st.point⟩, [])) ∧
    (∀ w p0 pre q, 2 ≤ w →
      (outputRawP w ⟨-1, p0⟩ pre).1.left = -1 →
      (q ≤ 0xD7FF ∨ (0xE000 ≤ q ∧ q ≤ 0xFFFF)) →
      (outputRawP w ⟨-1, p0⟩ (pre ++ utf8Encode q)).2 =
        (outputRawP w ⟨-1, p0⟩ pre).2 ++ [q]) := by
  refine ⟨?_, ?_, ?_, ?_⟩
  · intro w p0 a l n hw ha hl cs hc hlen
    have hsplit : l :: cs ++ [a] = (l :: cs) ++ [a] := by simp
    have ht := trunc_run w p0 cs hl hc hlen
    rcases hst : (outputRawP w ⟨-1, p0⟩ (l :: cs)).1 with ⟨lf, pt⟩
    rw [hst] at ht
    constructor
    · rw [hsplit, outputRawP_append, hst, ht.2]
      rw [outputRawP_cons, stepByteP_ascii (ascii_mask a ha)]
      dsimp only
      rw [outputRawP_nil, wideMod_small8 hw (by omega)]
      rfl
    · rw [hsplit, outputRawP_append, hst]
      rw [outputRawP_cons, stepByteP_ascii (ascii_mask a ha)]
      rfl
  · intro w p0 c hc
    exact stepByteP_lonecont hc (by norm_num)
  · intro w st c hc
    exact stepByteP_invalid hc
  · intro w p0 pre q hw hleft hq
    rw [outputRawP_append]
    rcases hst : (outputRawP w ⟨-1, p0⟩ pre).1 with ⟨lf, pt⟩
    rw [hst] at hleft
    simp only at hleft
    subst hleft
    have h := @decode_encode w q pt hw (by omega) (by omega)
    rw [h.2, if_pos (Or.inl (by omega))]

/-- Witness for C6: a truncated `E4 B8` interrupted by `A`, a lone
continuation, the invalid lead `0xFF`, and recovery decoding `U+4E16`
after a dropped byte. -/
theorem malformed_input_silent_resync_witness :
    ((outputRawP 2 ⟨-1, 0⟩ (0xE4 :: [0xB8] ++ [0x41])).2 = [0x41] ∧
     (outputRawP 2 ⟨-1, 0⟩ (0xE4 :: [0xB8] ++ [0x41])).1.left = -1) ∧
    stepByteP 2 ⟨-1, 7⟩ 0x80 = (⟨-1, 7⟩, []) ∧
    stepByteP 2 ⟨-1, 3⟩ 0xFF = (⟨-1, 3⟩, []) ∧
    (outputRawP 2 ⟨-1, 0⟩ ([0xFF] ++ utf8Encode 0x4E16)).2 =
      (outputRawP 2 ⟨-1, 0⟩ [0xFF]).2 ++ [0x4E16] := by
  refine ⟨malformed_input_silent_resync.1 2 0 0x41 0xE4 3 (by norm_num)
      (by norm_num) (by decide) [0xB8] (by decide) (by norm_num),
    malformed_input_silent_resync.2.1 2 7 0x80 (by decide),
    malformed_input_silent_resync.2.2.1 2 ⟨-1, 3⟩ 0xFF (by decide),
    malformed_input_silent_resync.2.2.2 2 0 [0xFF] 0x4E16 (by norm_num)
      (by decide) (by norm_num)⟩

/-- C9: Between any two decode steps the decoder's `left` field is one of
`-1`, `1`, `2`, `3` — never `0` — at construction, after every byte
processed by `output_raw` (with any sink) and after `overflow`; the state
`overflow` leaves on a byte equals the pure per-byte step; and whenever
`left > 0` after a pure run, the input ends in a lead byte plus the
already-folded continuation bytes, with `point` exactly their payload
fold and `left` the count still missing. -/
theorem decoder_state_invariant :
    (∀ p0 : Nat, SimpleInv ⟨-1, p0⟩) ∧
    (∀ w (st : DecState) (sk : SinkState) ch,
      SimpleInv st → SimpleInv (stepByte w st sk ch).2.1) ∧
    (∀ w (st : DecState) (sk : SinkState) c,
      SimpleInv st → SimpleInv (overflow w st sk c).2.1) ∧
    (∀ w (st : DecState) (sk : SinkState) b,
      (overflow w st sk (some b)).2.1 = (stepByteP w st b).1) ∧
    (∀ w p0 bs, AccInv bs (outputRawP w ⟨-1, p0⟩ bs).1) := by
  refine ⟨fun p0 => Or.inl rfl, ?_, ?_, overflow_state, accInv_run⟩
  · intro w st sk ch h
    rw [stepByte_state]
    exact stepByteP_simpleInv w st ch h
  · intro w st sk c h
    cases c with
    | none => exact h
    | some b =>
      rw [overflow_state]
      exact stepByteP_simpleInv w st b h

/-- Witness for C9 at concrete states and bytes. -/
theorem decoder_state_invariant_witness :
    SimpleInv ⟨-1, 0⟩ ∧
    SimpleInv (stepByte 2 ⟨2, 5⟩ ⟨some 0, []⟩ 0x80).2.1 ∧
    SimpleInv (overflow 2 ⟨-1, 0⟩ ⟨none, []⟩ (some 0x41)).2.1 ∧
    (overflow 2 ⟨3, 1⟩ ⟨none, []⟩ (some 0x9F)).2.1 = (stepByteP 2 ⟨3, 1⟩ 0x9F).1 ∧
    AccInv [0xE4, 0xB8] (outputRawP 2 ⟨-1, 0⟩ [0xE4, 0xB8]).1 :=
  ⟨decoder_state_invariant.1 0,
   decoder_state_invariant.2.1 2 ⟨2, 5⟩ ⟨some 0, []⟩ 0x80
     (Or.inr (Or.inr (Or.inl rfl))),
   decoder_state_invariant.2.2.1 2 ⟨-1, 0⟩ ⟨none, []⟩ (some 0x41) (Or.inl rfl),
   decoder_state_invariant.2.2.2.1 2 ⟨3, 1⟩ ⟨none, []⟩ 0x9F,
   decoder_state_invariant.2.2.2.2 2 0 [0xE4, 0xB8]⟩

lemma stepByte_drop {c : Nat} (st : DecState) (sk : SinkState)
    (hl : st.left = 1) (hc : c &&& 0xC0 = 0x80)
    (hrange : (0xD800 ≤ contFold st.point c ∧ contFold st.point c ≤ 0xDFFF) ∨
      0x10FFFF < contFold st.point c) :
    stepByte 2 st sk c = (true, ⟨-1, contFold st.point c⟩, sk) := by
  unfold stepByte
  rw [if_neg (by simp [cont_and80 hc]), classify_cont hc (by omega)]
  have h0 : st.left - 1 = 0 := by omega
  rw [h0]
  rw [if_pos rfl]
  rw [if_neg (by simp only []; omega), if_neg (by simp only []; omega)]

lemma stepByte_wide_unit {c : Nat} (w : Nat) (st : DecState) (L : List Nat)
    (hl : st.left = 1) (hc : c &&& 0xC0 = 0x80) (hw : 4 ≤ w) :
    stepByte w st ⟨none, L⟩ c =
      (true, ⟨-1, contFold st.point c⟩, ⟨none, L ++ [contFold st.point c]⟩) := by
  have hm : contFold st.point c % wideMod w = contFold st.point c :=
    wideMod_small32 hw (contFold_lt _ _)
  rw [stepByte_none, stepByteP_cont_fin hc hl, emitStep_wide hw, hm]

/-- C10: When the wide unit is 2 bytes, a completed decode whose value is
a surrogate (`0xD800..0xDFFF`) or above `0x10FFFF` emits nothing — the
sink is untouched, no write can fail — yet `left` is reset to `-1` and
the byte counts as consumed; when the wide unit is at least 4 bytes,
every completed value (these included) is emitted as a single unit. -/
theorem completed_point_dropped_or_single_unit (st : DecState)
    (sk : SinkState) (c : Nat) (hl : st.left = 1) (hc : c &&& 0xC0 = 0x80) :
    ((0xD800 ≤ contFold st.point c ∧ contFold st.point c ≤ 0xDFFF) ∨
        0x10FFFF < contFold st.point c →
      stepByte 2 st sk c = (true, ⟨-1, contFold st.point c⟩, sk)) ∧
    (∀ w, 4 ≤ w → ∀ L, stepByte w st ⟨none, L⟩ c =
      (true, ⟨-1, contFold st.point c⟩, ⟨none, L ++ [contFold st.point c]⟩)) :=
  ⟨fun hr => stepByte_drop st sk hl hc hr,
   fun w hw L => stepByte_wide_unit w st L hl hc hw⟩

/-- Witness for C10: completing `ED A0 80` (U+D800): with a 2-byte wide
unit nothing is emitted even on a full sink, with a 4-byte wide unit the
value `0xD800` is emitted. -/
theorem completed_point_dropped_or_single_unit_witness :
    DecState.left ⟨1, 0x360⟩ = 1 ∧ (0x80 &&& 0xC0 : Nat) = 0x80 ∧
    stepByte 2 ⟨1, 0x360⟩ ⟨some 0, [7]⟩ 0x80 = (true, ⟨-1, 0xD800⟩, ⟨some 0, [7]⟩) ∧
    stepByte 4 ⟨1, 0x360⟩ ⟨none, []⟩ 0x80 = (true, ⟨-1, 0xD800⟩, ⟨none, [0xD800]⟩) :=
  ⟨rfl, by decide,
   (completed_point_dropped_or_single_unit ⟨1, 0x360⟩ ⟨some 0, [7]⟩ 0x80
     rfl (by decide)).1 (by decide),
   (completed_point_dropped_or_single_unit ⟨1, 0x360⟩ ⟨some 0, [7]⟩ 0x80
     rfl (by decide)).2 4 (by norm_num) []⟩

/-- C1 is contradicted by the code: `con_transcoder`'s move constructor
and move assignment are `= default`, which copies the raw saved
`streambuf` pointers and leaves them intact in the moved-from object, so
a moved-from guard still restores on its own destruction (both guards own
the restoration duty and a double restore occurs).  This theorem
evaluates the model at the failing input: a guard that installed a sink
for `cout` and `cerr` is move-constructed from; the moved-from guard is
unchanged and its destructor still swaps the original buffers back in. -/
theorem moved_from_guard_still_restores :
    (moveCtorGuard ⟨some (Buf.orig 0), some (Buf.orig 1)⟩).2 =
      (⟨some (Buf.orig 0), some (Buf.orig 1)⟩ : Guard) ∧
    con_transcoder_dtor (moveCtorGuard ⟨some (Buf.orig 0), some (Buf.orig 1)⟩).2
        ⟨Buf.dec 5, Buf.dec 6, true, 1, false, 7⟩ =
      ⟨Buf.orig 0, Buf.orig 1, true, 1, false, 7⟩ ∧
    (moveAssignGuard ⟨none, none⟩ ⟨some (Buf.orig 0), none⟩).2 =
      (⟨some (Buf.orig 0), none⟩ : Guard) := by decide

/-- C2 counterexample: on the non-translating platform the constructor
executes `if (!translate) return;` before the `prepare_console` call, so
when the wide streams are not yet imbued, constructing a guard leaves
them not imbued (while indeed replacing no sinks). -/
theorem posix_ctor_does_not_imbue :
    (con_transcoder_ctor .posix
        ⟨Buf.orig 0, Buf.orig 1, false, 0, false, 0⟩).2.imbued = false ∧
    (con_transcoder_ctor .posix ⟨Buf.orig 0, Buf.orig 1, false, 0, false, 0⟩).2 =
      ⟨Buf.orig 0, Buf.orig 1, false, 0, false, 0⟩ := by decide

/-- C2 amended: on a non-translating platform, constructing a
`con_transcoder` replaces no sinks and changes no console state at all —
in particular it does not imbue `wcout`/`wcerr`, because the constructor
returns before `prepare_console` (whose non-Windows version would imbue)
can ever run. -/
theorem posix_ctor_noop (cs : ConsoleState) :
    con_transcoder_ctor .posix cs = (⟨none, none⟩, cs) := rfl

/-- C7: Constructing a second guard while a transcoder is already
installed installs nothing (type-check detects the existing
`utf8_on_wide_out`), leaves both stream buffers untouched, and after
destroying the inner then the outer guard both streams hold their
original pre-guard buffers — no double wrap, no double restore. -/
theorem double_install_idempotent_restore (cs0 : ConsoleState)
    (h1 : cs0.coutBuf.isDec = false) (h2 : cs0.cerrBuf.isDec = false) :
    (con_transcoder_ctor .windows (con_transcoder_ctor .windows cs0).2).1 =
      (⟨none, none⟩ : Guard) ∧
    (con_transcoder_ctor .windows (con_transcoder_ctor .windows cs0).2).2.coutBuf =
      (con_transcoder_ctor .windows cs0).2.coutBuf ∧
    (con_transcoder_ctor .windows (con_transcoder_ctor .windows cs0).2).2.cerrBuf =
      (con_transcoder_ctor .windows cs0).2.cerrBuf ∧
    (con_transcoder_dtor (con_transcoder_ctor .windows cs0).1
      (con_transcoder_dtor
        (con_transcoder_ctor .windows (con_transcoder_ctor .windows cs0).2).1
        (con_transcoder_ctor .windows
          (con_transcoder_ctor .windows cs0).2).2)).coutBuf = cs0.coutBuf ∧
    (con_transcoder_dtor (con_transcoder_ctor .windows cs0).1
      (con_transcoder_dtor
        (con_transcoder_ctor .windows (con_transcoder_ctor .windows cs0).2).1
        (con_transcoder_ctor .windows
          (con_transcoder_ctor .windows cs0).2).2)).cerrBuf = cs0.cerrBuf := by
  rw [ctor_win_fresh cs0 h1 h2]
  dsimp only
  rw [ctor_win_installed
    { cs0 with coutBuf := Buf.dec cs0.nextId, cerrBuf := Buf.dec (cs0.nextId + 1),
               prepared := true,
               prepCount := cs0.prepCount + (if cs0.prepared then 0 else 1),
               nextId := cs0.nextId + 2 } rfl rfl]
  exact ⟨rfl, rfl, rfl, rfl, rfl⟩

/-- Witness for C7 at a concrete console state. -/
theorem double_install_idempotent_restore_witness :
    Buf.isDec (ConsoleState.coutBuf ⟨Buf.orig 0, Buf.orig 1, false, 0, false, 10⟩)
      = false ∧
    Buf.isDec (ConsoleState.cerrBuf ⟨Buf.orig 0, Buf.orig 1, false, 0, false, 10⟩)
      = false ∧
    (con_transcoder_ctor .windows
      (con_transcoder_ctor .windows
        ⟨Buf.orig 0, Buf.orig 1, false, 0, false, 10⟩).2).1 = (⟨none, none⟩ : Guard) ∧
    (con_transcoder_dtor
      (con_transcoder_ctor .windows
        ⟨Buf.orig 0, Buf.orig 1, false, 0, false, 10⟩).1
      (con_transcoder_dtor
        (con_transcoder_ctor .windows
          (con_transcoder_ctor .windows
            ⟨Buf.orig 0, Buf.orig 1, false, 0, false, 10⟩).2).1
        (con_transcoder_ctor .windows
          (con_transcoder_ctor .windows
            ⟨Buf.orig 0, Buf.orig 1, false, 0, false, 10⟩).2).2)).coutBuf =
      ConsoleState.coutBuf ⟨Buf.orig 0, Buf.orig 1, false, 0, false, 10⟩ := by
  have h := double_install_idempotent_restore
    ⟨Buf.orig 0, Buf.orig 1, false, 0, false, 10⟩ (by decide) (by decide)
  exact ⟨by decide, by decide, h.1, h.2.2.2.1⟩

/-- C8: On the translating platform the side effects of `prepare_console`
execute at most once per process: starting from a process state in which
the static `prepared` flag is still `false`, constructing any number `n`
of `con_transcoder` instances runs `prepare_console` exactly `min n 1`
times. -/
theorem prepare_console_runs_once (n : Nat) (cs0 : ConsoleState)
    (h : cs0.prepared = false) :
    (ctorTimes .windows n cs0).prepCount = cs0.prepCount + min n 1 := by
  cases n with
  | zero => simp [ctorTimes]
  | succ m =>
    have hc := ctor_win_prep cs0
    show (ctorTimes .windows m (con_transcoder_ctor .windows cs0).2).prepCount = _
    rw [ctorTimes_prepared m _ hc.1, hc.2, h]
    simp [Nat.min_def]

/-- Witness for C8: three constructions run `prepare_console` once. -/
theorem prepare_console_runs_once_witness :
    ConsoleState.prepared ⟨Buf.orig 0, Buf.orig 1, false, 0, false, 0⟩ = false ∧
    (ctorTimes .windows 3 ⟨Buf.orig 0, Buf.orig 1, false, 0, false, 0⟩).prepCount =
      ConsoleState.prepCount ⟨Buf.orig 0, Buf.orig 1, false, 0, false, 0⟩ +
        min 3 1 :=
  ⟨rfl, prepare_console_runs_once 3 ⟨Buf.orig 0, Buf.orig 1, false, 0, false, 0⟩ rfl⟩

end Utf8Con
